import Mathlib

/-!
Verification of the sensor-dashboard analytics code
(`app/dashboards/anomaly_detection.py`, `app/dashboards/trend_analysis.py`).

Modelling conventions, used throughout:

* Numeric values are embedded as exact rationals `ℚ`.  A pandas cell is
  `Option ℚ`, with `none` standing for a missing value / IEEE `NaN`
  (pandas uses `NaN` for both).  All pandas reductions (`mean`, `std`,
  `quantile`, `cov`, rolling statistics) skip `NaN` entries exactly as
  pandas does, and comparisons against `NaN` are `False`, as in IEEE
  arithmetic, which is what makes the detectors "fail closed".
* Square roots: the source only ever uses a standard deviation `σ = √v`
  inside the comparison `|x| / σ > t`.  Such quantities are represented by
  their squares (which are rational), and the comparison is decided by the
  exact equivalence `√q > t ↔ t < 0 ∨ t² < q` (for `q ≥ 0`), proved
  against `Real.sqrt` in `AnomalyDetection.PVal_gtQ_iff` below.  `0/0`
  is `NaN` and `x/0` for `x ≠ 0` is `±∞`, following IEEE division.
* A pandas `DataFrame` holding one sensor column is the structure `Frame`;
  a column that a detector has not (yet) written is a `none` field.
  Python passes DataFrames by reference and `data['col'] = ...` assigns in
  place, so after a call the caller's object is exactly the frame the
  detector returns; this aliasing is made explicit where it matters.
* Library routines invoked by the source (pandas `rolling`, numpy
  `linalg.inv`, `argsort`, statsmodels `seasonal_decompose`) are embedded
  by their documented/implemented exact-arithmetic behaviour; each
  definition's doc comment records the correspondence.
-/

namespace AnomalyDetection

/-- A cell of a pandas numeric column: a finite value, or `none` for NaN/missing. -/
abbrev Cell := Option ℚ

/-- A pandas numeric column, in row order. -/
abbrev Series := List Cell

/-- The finite (non-NaN) entries of a column, in order: the view every
`skipna` pandas reduction operates on. -/
def validVals (s : Series) : List ℚ := s.filterMap id

/-- pandas `Series.mean()`: mean of the non-NaN entries; `NaN` if there are none. -/
def smean (s : Series) : Option ℚ :=
  let v := validVals s
  if v.length = 0 then none else some (v.sum / (v.length : ℚ))

/-- pandas `Series.std()` squared: the sample variance (`ddof = 1`) of the
non-NaN entries, `NaN` when fewer than two.  The standard deviation the
source works with is `√(svar s)`; since a standard deviation is
nonnegative, carrying the square loses no information. -/
def svar (s : Series) : Option ℚ :=
  let v := validVals s
  if v.length < 2 then none
  else some ((v.map (fun x => (x - v.sum / (v.length : ℚ)) ^ 2)).sum / ((v.length : ℚ) - 1))

/-- The value of one entry of the `zscore` column: a nonnegative extended
real of the form `|x - μ| / √v`.  `nan` and `inf` record the IEEE outcomes
`0/0` and `x/0 (x ≠ 0)`; a finite score is recorded by its (rational)
square `sq q`, the score itself being `√q`. -/
inductive PVal where
  | nan : PVal
  | inf : PVal
  | sq (q : ℚ) : PVal
deriving DecidableEq, Repr

/-- One entry of `abs((data[column] - mean) / std)` where `mean`, `std` come
from `x.mean()` / `x.std()` (`std = √var`): NaN operands propagate; division
by a zero std gives NaN for a zero numerator and `+∞` (after `abs`)
otherwise; otherwise the score is `√((x - m)² / var)`. -/
def zscoreVal (x m var : Option ℚ) : PVal :=
  match x, m, var with
  | some x, some m, some v =>
    if v = 0 then (if x = m then PVal.nan else PVal.inf) else PVal.sq ((x - m) ^ 2 / v)
  | _, _, _ => PVal.nan

/-- The pandas/numpy comparison `score > threshold` on a `PVal` score:
`NaN > t` is `False`, `+∞ > t` is `True`, and `√q > t ↔ t < 0 ∨ t² < q`. -/
def PVal.gtQ (z : PVal) (t : ℚ) : Bool :=
  match z with
  | PVal.nan => false
  | PVal.inf => true
  | PVal.sq q => decide (t < 0) || decide (t ^ 2 < q)

/-- Floor of a nonnegative rational, as a natural number. -/
def ratFloorNat (q : ℚ) : ℕ := (q.num / (q.den : ℤ)).toNat

/-- numpy's linear-interpolation quantile of a nonempty sorted list `v`
(the interpolation used by pandas `Series.quantile`): with virtual index
`h = q·(n-1)`, `i = ⌊h⌋` and `j = min (i+1) (n-1)`, the quantile is
`v[i] + (h - i)·(v[j] - v[i])`. -/
def interpQuantile (v : List ℚ) (q : ℚ) : ℚ :=
  let n := v.length
  let h : ℚ := q * ((n : ℚ) - 1)
  let i : ℕ := ratFloorNat h
  let j : ℕ := min (i + 1) (n - 1)
  v.getD i 0 + (h - (i : ℚ)) * (v.getD j 0 - v.getD i 0)

/-- pandas `Series.quantile(q)`: sort the non-NaN entries and linearly
interpolate; `NaN` on an all-NaN column. -/
def quantile (s : Series) (q : ℚ) : Option ℚ :=
  let v := List.insertionSort (· ≤ ·) (validVals s)
  if v.length = 0 then none else some (interpQuantile v q)

/-- A pandas `DataFrame` as the detectors see it: the `timestamp` column,
the selected sensor-parameter column (`value`), and the columns the
detectors may assign.  A field holding `none` is a column that is absent
from the frame.  The `zscore` column stores `PVal` scores, the
`rolling_std` column stores the rolling variance (the square of the column
the source writes); both encodings are injective, so frame equality below
coincides with equality of the source frames. -/
structure Frame where
  timestamp : List ℚ
  value : Series
  zscore : Option (List PVal) := none
  anomaly : Option (List Bool) := none
  lower_bound : Option (Option ℚ) := none
  upper_bound : Option (Option ℚ) := none
  rolling_mean : Option (List (Option ℚ)) := none
  rolling_var : Option (List (Option ℚ)) := none
deriving DecidableEq, Repr

/-- Lines 9-29 of `anomaly_detection.py`: whole-series Z-score detection.
`mean = data[column].mean()`, `std = data[column].std()`,
`data['zscore'] = abs((data[column] - mean) / std)`,
`data['anomaly'] = data['zscore'] > threshold` (NaN-propagating, with
`NaN > t = False`), and the mutated frame is returned. -/
def detect_anomalies_zscore (data : Frame) (threshold : ℚ) : Frame :=
  let m := smean data.value
  let s := svar data.value
  let zs := data.value.map (fun x => zscoreVal x m s)
  { data with zscore := some zs, anomaly := some (zs.map (fun z => z.gtQ threshold)) }

/-- The IQR per-row flag `(x < lower) | (x > upper)`; comparisons against a
NaN value or NaN bounds are `False`. -/
def iqrFlag (lo hi : Option ℚ) (x : Cell) : Bool :=
  match x, lo, hi with
  | some v, some l, some u => decide (v < l) || decide (u < v)
  | _, _, _ => false

/-- Lines 31-57 of `anomaly_detection.py`: IQR detection.
`q1 = data[column].quantile(0.25)`, `q3 = data[column].quantile(0.75)`,
`iqr = q3 - q1`, bounds `q1 - multiplier*iqr` / `q3 + multiplier*iqr`
(scalar columns), flags by `(x < lower) | (x > upper)`. -/
def detect_anomalies_iqr (data : Frame) (multiplier : ℚ) : Frame :=
  let q1 := quantile data.value (1/4)
  let q3 := quantile data.value (3/4)
  let lo := match q1, q3 with
    | some a, some b => some (a - multiplier * (b - a))
    | _, _ => none
  let hi := match q1, q3 with
    | some a, some b => some (b + multiplier * (b - a))
    | _, _ => none
  { data with anomaly := some (data.value.map (iqrFlag lo hi)),
              lower_bound := some lo, upper_bound := some hi }

/-- The offset pandas uses for a centered fixed window
(`FixedWindowIndexer`: `offset = (window - 1) // 2` when `center=True`). -/
def rollOff (w : ℕ) : ℕ := (w - 1) / 2

/-- The (clipped) window of rows feeding the centered rolling statistic at
row `i`: pandas takes rows `[i + offset + 1 - w, i + offset]`, clipped to
the frame (ℕ subtraction performs the lower clip). -/
def rollWindow (s : Series) (w i : ℕ) : Series :=
  (s.take (i + rollOff w + 1)).drop (i + rollOff w + 1 - w)

/-- The rolling mean and (squared) rolling std at row `i` of
`data[column].rolling(window=w, center=True)`: with the default
`min_periods = w`, the result is `NaN` unless the clipped window holds `w`
non-NaN rows, and is otherwise the mean / sample variance of the window. -/
def rollStats (s : Series) (w i : ℕ) : Option ℚ × Option ℚ :=
  let win := rollWindow s w i
  if w ≤ (validVals win).length then (smean win, svar win) else (none, none)

/-- Lines 59-85 of `anomaly_detection.py`: rolling Z-score detection.
Centered rolling mean/std columns, `zscore = abs((x - rolling_mean) /
rolling_std)`, flags `zscore > threshold`, then
`data['anomaly'].fillna(False)` (a no-op here: `NaN > t` is already
`False`). -/
def detect_anomalies_rolling (data : Frame) (window : ℕ) (threshold : ℚ) : Frame :=
  let n := data.value.length
  let zs := (List.range n).map
    (fun i => zscoreVal (data.value.getD i none) (rollStats data.value window i).1
      (rollStats data.value window i).2)
  { data with
      rolling_mean := some ((List.range n).map (fun i => (rollStats data.value window i).1)),
      rolling_var := some ((List.range n).map (fun i => (rollStats data.value window i).2)),
      zscore := some zs,
      anomaly := some (zs.map (fun z => z.gtQ threshold)) }

/-- The anomaly column of a frame a detector has run on (`data['anomaly']`). -/
def anomalyCol (f : Frame) : List Bool := f.anomaly.getD []

/-- The three detection methods of the dashboard with their per-method
parameters, as dispatched by the `detection_method` selector. -/
inductive DetectionConfig where
  | zscoreCfg (threshold : ℚ) : DetectionConfig
  | iqrCfg (multiplier : ℚ) : DetectionConfig
  | rollingCfg (window : ℕ) (threshold : ℚ) : DetectionConfig
deriving DecidableEq, Repr

/-- Method dispatch as in the dashboard (`if detection_method == ...`). -/
def runDetect (cfg : DetectionConfig) (data : Frame) : Frame :=
  match cfg with
  | DetectionConfig.zscoreCfg t => detect_anomalies_zscore data t
  | DetectionConfig.iqrCfg m => detect_anomalies_iqr data m
  | DetectionConfig.rollingCfg w t => detect_anomalies_rolling data w t

/-- The minimum number of non-missing values below which a detection
method has no defined statistic anywhere: two for the whole-series
methods (a sample std or an interpolated quantile pair needs two points to
spread), the window size for the rolling method. -/
def requiredValid : DetectionConfig → ℕ
  | DetectionConfig.zscoreCfg _ => 2
  | DetectionConfig.iqrCfg _ => 2
  | DetectionConfig.rollingCfg w _ => w

/-- Python passes the DataFrame into `detect_anomalies_zscore` by
reference, and the function assigns columns in place
(`data['zscore'] = ...`, `data['anomaly'] = ...`), so after the call the
caller's object is exactly the frame the function returns.  This
definition names that post-call state of the caller's frame. -/
def callerFrameAfterZscore (data : Frame) (threshold : ℚ) : Frame :=
  detect_anomalies_zscore data threshold

/-- Sample mean of a fully observed column.  The correlation-anomaly tab
(lines 659-690) is embedded on fully observed pairs; its claims all
concern such inputs, and an empty column is excluded by the length guard
in `detectCorrelationAnomalies`. -/
def qmean (v : List ℚ) : ℚ := v.sum / (v.length : ℚ)

/-- Sample variance (`ddof = 1`), as computed by pandas `X.std()²` /
`X_std.cov()` diagonal on a fully observed column. -/
def qvar (v : List ℚ) : ℚ :=
  ((v.map (fun x => (x - qmean v) ^ 2)).sum) / ((v.length : ℚ) - 1)

/-- Sample covariance (`ddof = 1`) of two fully observed columns of equal
length. -/
def qcov (xs ys : List ℚ) : ℚ :=
  (((xs.zip ys).map (fun p => (p.1 - qmean xs) * (p.2 - qmean ys))).sum) /
    ((xs.length : ℚ) - 1)

/-- Failure modes of the correlation-anomaly computation.
`degenerateInput`: a zero-variance or shorter-than-2 column makes the
standardization `(X - X.mean()) / X.std()` produce NaN columns, and the
behaviour of `np.linalg.inv` on a NaN matrix is not specified (this path
is not relied on by any claim).  `singularCovariance`: the standardized
covariance matrix has determinant zero and `np.linalg.inv` raises
`LinAlgError("Singular matrix")`, which no caller catches. -/
inductive CorrErr where
  | degenerateInput : CorrErr
  | singularCovariance : CorrErr
deriving DecidableEq, Repr

/-- Lines 659-690 of `anomaly_detection.py`: per-point Mahalanobis
distances of a standardized pair, or the error raised on the way.

In exact arithmetic the standardized columns `x' = (x - μx)/√vx`,
`y' = (y - μy)/√vy` have sample covariance matrix `[[1, r], [r, 1]]` with
`r = c/√(vx·vy)`, `c = qcov xs ys`, so `np.linalg.inv` succeeds exactly
when `det = 1 - c²/(vx·vy) ≠ 0`, and then the squared Mahalanobis
distance of row `i` is
`(u² - 2·r·u·v + v²)/det` with `u = (xᵢ-μx)/√vx`, `v = (yᵢ-μy)/√vy` —
every summand of which is rational: `u² = (xᵢ-μx)²/vx`,
`r·u·v = c·(xᵢ-μx)·(yᵢ-μy)/(vx·vy)`, `v² = (yᵢ-μy)²/vy`.  The returned
list holds these squared distances (the source's `mahalanobis` column is
their square root; the subsequent flag `d > √(chi2.ppf(0.95, 2))` is
equivalent to comparing the square against the transcendental constant
`2·ln 20`, which no claim needs). -/
def detectCorrelationAnomalies (xs ys : List ℚ) : Except CorrErr (List ℚ) :=
  if xs.length < 2 ∨ qvar xs = 0 ∨ qvar ys = 0 then Except.error CorrErr.degenerateInput
  else
    let vx := qvar xs
    let vy := qvar ys
    let c := qcov xs ys
    if 1 - c ^ 2 / (vx * vy) = 0 then Except.error CorrErr.singularCovariance
    else Except.ok ((xs.zip ys).map (fun p =>
      ((p.1 - qmean xs) ^ 2 / vx
        - 2 * (c * (p.1 - qmean xs) * (p.2 - qmean ys) / (vx * vy))
        + (p.2 - qmean ys) ^ 2 / vy) / (1 - c ^ 2 / (vx * vy))))

/-- The parameter codes the summary tab iterates over
(`parameters = ['ph', 'temp', ...]`). -/
def paramCodes : List String := ["ph", "temp", "conductivity", "dissolved_oxygen", "turbidity"]

/-- One row of the summary tab's `results` table (the presentation-only
`Location` / display-name fields are omitted): sensor id, parameter code,
`Total Points`, `Anomalies` and `Anomaly %`. -/
structure SummaryRow where
  sensorId : ℕ
  param : String
  totalPoints : ℕ
  anomalies : ℕ
  anomalyPercent : ℚ
deriving DecidableEq, Repr

/-- One iteration of the summary loop: run the chosen detector on the
(sensor, parameter) column and record the counts.  `Anomaly %` is
`num_anomalies / shape[0] * 100`; the dashboard only ever passes nonempty
frames (an empty one would make Python raise `ZeroDivisionError`, while
`ℚ` division by zero yields `0` here — no theorem depends on that cell). -/
def mkSummaryRow (cfg : DetectionConfig) (sid : ℕ) (p : String) (s : Series) : SummaryRow :=
  let flags := anomalyCol (runDetect cfg { timestamp := [], value := s })
  { sensorId := sid, param := p, totalPoints := s.length,
    anomalies := flags.count true,
    anomalyPercent := ((flags.count true : ℚ) / (s.length : ℚ)) * 100 }

/-- The row order `sort_values('Anomaly %', ascending=False)` sorts by. -/
def rowLE (a b : SummaryRow) : Prop := a.anomalyPercent ≤ b.anomalyPercent

instance : DecidableRel rowLE :=
  fun a b => inferInstanceAs (Decidable (a.anomalyPercent ≤ b.anomalyPercent))

instance : IsTotal SummaryRow rowLE := ⟨fun a b => le_total a.anomalyPercent b.anomalyPercent⟩

instance : IsTrans SummaryRow rowLE := ⟨fun _ _ _ => le_trans⟩

/-- pandas `DataFrame.sort_values('Anomaly %', ascending=False)`: pandas
`nargsort` argsorts ascending with the default `kind='quicksort'` and then
reverses the indexer.  numpy's introsort runs a plain (stable) insertion
sort for fewer than 16 rows, which `List.insertionSort` reproduces
exactly; on larger inputs only the order among ties is
implementation-defined, and the descending sortedness proved below does
not depend on it. -/
def pandasSortValuesDesc (rows : List SummaryRow) : List SummaryRow :=
  (List.insertionSort rowLE rows).reverse

/-- The summary tab's collection loop (lines 823-898): for each sensor id
`1..num_sensors` and each parameter code, if the column
`sensor_{id}_{param}` exists in `combined_data` (`cols sid p = some s`),
run the detector on a fresh two-column frame and append the counts row. -/
def summaryRows (numSensors : ℕ) (cols : ℕ → String → Option Series)
    (cfg : DetectionConfig) : List SummaryRow :=
  (List.range numSensors).flatMap (fun k =>
    paramCodes.filterMap (fun p =>
      (cols (k + 1) p).map (fun s => mkSummaryRow cfg (k + 1) p s)))

/-- The whole summary computation: collect all rows, then
`results_df.sort_values('Anomaly %', ascending=False)`. -/
def summarize (numSensors : ℕ) (cols : ℕ → String → Option Series)
    (cfg : DetectionConfig) : List SummaryRow :=
  pandasSortValuesDesc (summaryRows numSensors cols cfg)

/-- A one-row frame with a single observed value: fewer non-missing values
than any whole-series method requires. -/
def oneValueFrame : Frame := { timestamp := [0], value := [some 5] }

/-- A one-row frame whose single value is missing. -/
def missingValueFrame : Frame := { timestamp := [0], value := [none] }

/-- The spec's worked scenario: the series `[7, 7, 7, 7, 12]`. -/
def scenarioFrame : Frame :=
  { timestamp := [0, 1, 2, 3, 4], value := [some 7, some 7, some 7, some 7, some 12] }

/-- A three-row constant frame (value 2 everywhere). -/
def constantFrame : Frame := { timestamp := [0, 1, 2], value := [some 2, some 2, some 2] }

/-- A two-row frame `[0, 1]`, used against the rolling detector with the
even window 2. -/
def twoPointFrame : Frame := { timestamp := [0, 1], value := [some 0, some 1] }

/-- A four-row frame `[1, 2, 3, 10]` for exercising the IQR detector. -/
def fourPointFrame : Frame :=
  { timestamp := [0, 1, 2, 3], value := [some 1, some 2, some 3, some 10] }

/-- A fresh two-row frame (no detector has written to it). -/
def freshFrame : Frame := { timestamp := [0, 1], value := [some 1, some 2] }

/-- A fleet with one sensor carrying two constant columns (`ph` and
`temp`) — two summary rows with the same `Anomaly %` of zero. -/
def tieFleetCols : ℕ → String → Option Series := fun sid p =>
  if sid = 1 ∧ p = "ph" then some [some 1, some 1]
  else if sid = 1 ∧ p = "temp" then some [some 2, some 2]
  else none

end AnomalyDetection

namespace TrendAnalysis

open AnomalyDetection

/-- Failure modes of the seasonal-decomposition path of
`trend_analysis.py`.  `insufficientData`: the dashboard's own gate
`if len(daily_data) >= 14` fails and no decomposition is attempted.
`missingValues`: statsmodels `seasonal_decompose` raises
`ValueError("This function does not handle missing values")` when the
daily series contains NaN (the dashboard catches it and shows an error —
either way no components are produced). -/
inductive DecompErr where
  | insufficientData : DecompErr
  | missingValues : DecompErr
deriving DecidableEq, Repr

/-- The four aligned outputs of
`seasonal_decompose(x, model='additive', period=7)`. -/
structure DecompResult where
  observed : List ℚ
  trend : List (Option ℚ)
  seasonal : List (Option ℚ)
  resid : List (Option ℚ)
deriving DecidableEq, Repr

/-- The trend component at index `i`: statsmodels' two-sided moving
average with the odd-period filter `np.ones(7)/7` — the mean of
`x[i-3..i+3]`, undefined at the three indices on either edge. -/
def trendAt (v : List ℚ) (i : ℕ) : Option ℚ :=
  if 3 ≤ i ∧ i + 4 ≤ v.length then some ((((v.drop (i - 3)).take 7).sum) / 7) else none

/-- `detrended = x - trend`, undefined where the trend is. -/
def detrendAt (v : List ℚ) (i : ℕ) : Option ℚ :=
  (trendAt v i).map (fun t => v.getD i 0 - t)

/-- statsmodels `seasonal_mean` before centring: the `nanmean` of the
detrended values at indices congruent to `j` modulo the period 7. -/
def periodAvg (v : List ℚ) (j : ℕ) : Option ℚ :=
  let c := ((List.range v.length).filter (fun i => i % 7 = j)).filterMap (detrendAt v)
  if c.length = 0 then none else some (c.sum / (c.length : ℚ))

/-- `np.mean(period_averages)` (not a nanmean: one NaN period average
poisons the whole seasonal component). -/
def periodAvgMean (v : List ℚ) : Option ℚ :=
  let ps := (List.range 7).map (periodAvg v)
  if ps.any Option.isNone then none else some ((ps.filterMap id).sum / 7)

/-- The seasonal component at index `i`: the centred period average of the
index's residue class, tiled over the series. -/
def seasonalAt (v : List ℚ) (i : ℕ) : Option ℚ :=
  match periodAvg v (i % 7), periodAvgMean v with
  | some a, some m => some (a - m)
  | _, _ => none

/-- `resid = detrended - seasonal`. -/
def residAt (v : List ℚ) (i : ℕ) : Option ℚ :=
  match detrendAt v i, seasonalAt v i with
  | some d, some s => some (d - s)
  | _, _ => none

/-- Lines 836-915 of `trend_analysis.py`: the dashboard's gate
`if len(daily_data) >= 14` followed by
`seasonal_decompose(decomp_data[col_name], model='additive', period=7)`.
The daily series is `trend_data.resample('D').mean()`, which emits a NaN
row for a calendar day with no samples, so the input may contain NaN, on
which statsmodels raises (see `DecompErr`). -/
def decompose (xs : Series) : Except DecompErr DecompResult :=
  if xs.length < 14 then Except.error DecompErr.insufficientData
  else if xs.any (fun c => c.isNone) then Except.error DecompErr.missingValues
  else
    let v := validVals xs
    Except.ok
      { observed := v,
        trend := (List.range v.length).map (trendAt v),
        seasonal := (List.range v.length).map (seasonalAt v),
        resid := (List.range v.length).map (residAt v) }

/-- A 13-day daily series (one short of the gate). -/
def daily13 : Series := List.replicate 13 (some 5)

/-- A 14-day constant daily series. -/
def daily14 : Series := List.replicate 14 (some 5)

/-- A 14-day daily series with one missing day (a gap day produced by
`resample('D').mean()`). -/
def daily14gap : Series := List.replicate 13 (some 5) ++ [none]

/-- The `ok` payload `decompose daily14` produces. -/
def daily14Result : DecompResult :=
  { observed := validVals daily14,
    trend := (List.range (validVals daily14).length).map (trendAt (validVals daily14)),
    seasonal := (List.range (validVals daily14).length).map (seasonalAt (validVals daily14)),
    resid := (List.range (validVals daily14).length).map (residAt (validVals daily14)) }

end TrendAnalysis

/-! Shared supporting lemmas. -/

namespace AnomalyDetection

/-- Justification of the square representation: the boolean `PVal.gtQ`
decides exactly the real comparison `√q > t`. -/
theorem PVal_gtQ_iff (q t : ℚ) :
    (PVal.sq q).gtQ t = true ↔ (t : ℝ) < Real.sqrt (q : ℝ) := by
  unfold PVal.gtQ
  simp only [Bool.or_eq_true, decide_eq_true_eq]
  rcases lt_or_le t 0 with h | h
  · refine ⟨fun _ => ?_, fun _ => Or.inl h⟩
    have h0 : (t : ℝ) < 0 := by exact_mod_cast h
    exact lt_of_lt_of_le h0 (Real.sqrt_nonneg _)
  · have ht : (0 : ℝ) ≤ (t : ℝ) := by exact_mod_cast h
    rw [Real.lt_sqrt ht]
    constructor
    · rintro (hlt | hlt)
      · exact absurd hlt (not_lt.mpr h)
      · exact_mod_cast hlt
    · intro hlt
      exact Or.inr (by exact_mod_cast hlt)

theorem getD_of_length_le {α : Type*} {l : List α} {i : ℕ} {d : α}
    (h : l.length ≤ i) : l.getD i d = d := by
  induction l generalizing i with
  | nil => cases i <;> rfl
  | cons a t ih =>
    cases i with
    | zero => simp at h
    | succ n => exact ih (by simpa using h)

theorem getD_map_of_lt {α β : Type*} (fn : α → β) {l : List α} {i : ℕ}
    (h : i < l.length) (d : β) (da : α) :
    (l.map fn).getD i d = fn (l.getD i da) := by
  induction l generalizing i with
  | nil => simp at h
  | cons a t ih =>
    cases i with
    | zero => rfl
    | succ n => exact ih (by simpa using h)

theorem getD_range_map {β : Type*} (fn : ℕ → β) {n i : ℕ} (h : i < n) (d : β) :
    ((List.range n).map fn).getD i d = fn i := by
  rw [getD_map_of_lt fn (by simpa using h) d 0]
  congr 1
  rw [List.getD_eq_getElem?_getD, List.getElem?_range h]
  rfl

theorem map_eq_replicate_false {α : Type*} {l : List α} {fn : α → Bool}
    (h : ∀ x ∈ l, fn x = false) :
    l.map fn = List.replicate l.length false := by
  induction l with
  | nil => rfl
  | cons a t ih =>
    rw [List.map_cons, List.length_cons, List.replicate_succ,
      h a (List.mem_cons_self a t), ih (fun x hx => h x (List.mem_cons_of_mem a hx))]

theorem count_true_map_le {α : Type*} (p q : α → Bool) (l : List α)
    (h : ∀ x ∈ l, q x = true → p x = true) :
    (l.map q).count true ≤ (l.map p).count true := by
  induction l with
  | nil => simp
  | cons a t ih =>
    have ht := ih (fun x hx hqx => h x (List.mem_cons_of_mem a hx) hqx)
    have ha := h a (List.mem_cons_self a t)
    simp only [List.map_cons, List.count_cons]
    cases hq : q a <;> cases hp : p a <;> simp_all <;> omega

theorem validVals_const {s : Series} {c : ℚ} (h : ∀ x ∈ s, x = some c) :
    validVals s = List.replicate s.length c := by
  induction s with
  | nil => rfl
  | cons a t ih =>
    have ha : a = some c := h a (List.mem_cons_self a t)
    subst ha
    rw [validVals, List.filterMap_cons]
    simp only [id_eq, List.length_cons, List.replicate_succ]
    rw [← validVals, ih (fun x hx => h x (List.mem_cons_of_mem _ hx))]

theorem smean_const {s : Series} {c : ℚ} (h : ∀ x ∈ s, x = some c)
    (hn : s.length ≠ 0) : smean s = some c := by
  simp only [smean, validVals_const h, List.length_replicate, List.sum_replicate,
    nsmul_eq_mul]
  rw [if_neg hn]
  congr 1
  have hq : (s.length : ℚ) ≠ 0 := Nat.cast_ne_zero.mpr hn
  field_simp

theorem svar_const {s : Series} {c : ℚ} (h : ∀ x ∈ s, x = some c)
    (h2 : 2 ≤ s.length) : svar s = some 0 := by
  simp only [svar, validVals_const h, List.length_replicate, List.sum_replicate,
    nsmul_eq_mul, List.map_replicate]
  rw [if_neg (by omega)]
  have hq : (s.length : ℚ) ≠ 0 := Nat.cast_ne_zero.mpr (by omega)
  have hz : c - (s.length : ℚ) * c / (s.length : ℚ) = 0 := by field_simp
  rw [hz]
  simp

theorem svar_none_short {s : Series} (h : (validVals s).length < 2) :
    svar s = none := by
  simp only [svar]
  rw [if_pos h]

theorem zscoreVal_none_left (m v : Option ℚ) : zscoreVal none m v = PVal.nan := by
  cases m <;> cases v <;> rfl

theorem zscoreVal_var_none (x m : Option ℚ) : zscoreVal x m none = PVal.nan := by
  cases x <;> cases m <;> rfl

theorem zscoreVal_self (c : ℚ) : zscoreVal (some c) (some c) (some 0) = PVal.nan := by
  simp [zscoreVal]

theorem iqrFlag_none (lo hi : Option ℚ) : iqrFlag lo hi none = false := by
  cases lo <;> cases hi <;> rfl

theorem zscore_flag_const {s : Series} {c : ℚ} (h : ∀ x ∈ s, x = some c)
    {x : Cell} (hx : x ∈ s) (t : ℚ) :
    (zscoreVal x (smean s) (svar s)).gtQ t = false := by
  have hx' : x = some c := h x hx
  subst hx'
  by_cases h2 : 2 ≤ s.length
  · rw [smean_const h (by omega), svar_const h h2, zscoreVal_self]
    rfl
  · have hlt : (validVals s).length < 2 := by
      rw [validVals_const h, List.length_replicate]; omega
    rw [svar_none_short hlt, zscoreVal_var_none]
    rfl

theorem rollWindow_sublist (s : Series) (w i : ℕ) : (rollWindow s w i).Sublist s :=
  (List.drop_sublist _ _).trans (List.take_sublist _ _)

theorem rolling_flag_const {s : Series} {c : ℚ} (h : ∀ x ∈ s, x = some c)
    (w i : ℕ) (t : ℚ) (hi : i < s.length) :
    (zscoreVal (s.getD i none) (rollStats s w i).1 (rollStats s w i).2).gtQ t = false := by
  have hwin : ∀ x ∈ rollWindow s w i, x = some c :=
    fun x hx => h x ((rollWindow_sublist s w i).subset hx)
  have hgd : s.getD i none = some c := by
    rw [List.getD_eq_getElem?_getD, List.getElem?_eq_getElem hi]
    exact h _ (List.getElem_mem hi)
  rw [hgd]
  unfold rollStats
  by_cases hc : w ≤ (validVals (rollWindow s w i)).length
  · rw [if_pos hc]
    by_cases h2 : 2 ≤ (rollWindow s w i).length
    · simp only
      rw [smean_const hwin (by omega), svar_const hwin h2, zscoreVal_self]
      rfl
    · have hlt : (validVals (rollWindow s w i)).length < 2 := by
        rw [validVals_const hwin, List.length_replicate]; omega
      simp only
      rw [svar_none_short hlt, zscoreVal_var_none]
      rfl
  · rw [if_neg hc]
    rw [zscoreVal_var_none]
    rfl

end AnomalyDetection

namespace AnomalyDetection

/-- C1: on a series whose values are all equal, both the whole-series
Z-score detector and the rolling Z-score detector (any window, any
threshold) flag no point: every score is the NaN `0/0` (or NaN from an
undefined std), and `NaN > threshold` is `False` — fail closed. -/
theorem constant_series_zscore_rolling_unflagged (f : Frame) (c t : ℚ) (w : ℕ)
    (hconst : ∀ x ∈ f.value, x = some c) :
    (detect_anomalies_zscore f t).anomaly = some (List.replicate f.value.length false) ∧
    (detect_anomalies_rolling f w t).anomaly = some (List.replicate f.value.length false) := by
  constructor
  · simp only [detect_anomalies_zscore, List.map_map]
    congr 1
    exact map_eq_replicate_false (fun x hx => zscore_flag_const hconst hx t)
  · simp only [detect_anomalies_rolling, List.map_map]
    congr 1
    rw [map_eq_replicate_false, List.length_range]
    intro i hi
    exact rolling_flag_const hconst w i t (List.mem_range.mp hi)

/-- Witness for C1 at the concrete constant frame `[2, 2, 2]`,
threshold `1/2`, window `2`. -/
theorem constant_series_zscore_rolling_unflagged_witness :
    (∀ x ∈ constantFrame.value, x = some 2) ∧
    (detect_anomalies_zscore constantFrame (1/2)).anomaly =
      some (List.replicate constantFrame.value.length false) ∧
    (detect_anomalies_rolling constantFrame 2 (1/2)).anomaly =
      some (List.replicate constantFrame.value.length false) := by
  have h : ∀ x ∈ constantFrame.value, x = some 2 := by
    intro x hx
    simp only [constantFrame, List.mem_cons, List.not_mem_nil, or_false] at hx
    rcases hx with rfl | rfl | rfl <;> rfl
  exact ⟨h, (constant_series_zscore_rolling_unflagged constantFrame 2 (1/2) 2 h).1,
    (constant_series_zscore_rolling_unflagged constantFrame 2 (1/2) 2 h).2⟩

/-- C10: a missing (NaN) value is never flagged by any of the three
detection methods: NaN propagates into the score / the comparison, and a
comparison against NaN is `False`. -/
theorem missing_value_never_flagged (cfg : DetectionConfig) (f : Frame) (i : ℕ)
    (h : f.value.getD i none = none) :
    (anomalyCol (runDetect cfg f)).getD i false = false := by
  cases cfg with
  | zscoreCfg t =>
    simp only [runDetect, detect_anomalies_zscore, anomalyCol, Option.getD_some,
      List.map_map]
    by_cases hi : i < f.value.length
    · rw [getD_map_of_lt _ (by simpa using hi) _ none]
      simp only [Function.comp_apply, h, zscoreVal_none_left]
      rfl
    · exact getD_of_length_le (by simp; omega)
  | iqrCfg m =>
    simp only [runDetect, detect_anomalies_iqr, anomalyCol, Option.getD_some]
    by_cases hi : i < f.value.length
    · rw [getD_map_of_lt _ (by simpa using hi) _ none, h, iqrFlag_none]
    · exact getD_of_length_le (by simp; omega)
  | rollingCfg w t =>
    simp only [runDetect, detect_anomalies_rolling, anomalyCol, Option.getD_some,
      List.map_map]
    by_cases hi : i < f.value.length
    · rw [getD_range_map _ hi]
      simp only [Function.comp_apply, h, zscoreVal_none_left]
      rfl
    · exact getD_of_length_le (by simp; omega)

/-- Witness for C10: the one-row frame whose value is missing, under the
Z-score method at threshold 3. -/
theorem missing_value_never_flagged_witness :
    missingValueFrame.value.getD 0 none = none ∧
    (anomalyCol (runDetect (DetectionConfig.zscoreCfg 3) missingValueFrame)).getD 0 false
      = false :=
  ⟨rfl, missing_value_never_flagged (DetectionConfig.zscoreCfg 3) missingValueFrame 0 rfl⟩

end AnomalyDetection

namespace AnomalyDetection

theorem interpQuantile_singleton (a q : ℚ) : interpQuantile [a] q = a := by
  simp [interpQuantile, ratFloorNat]

theorem quantile_singleton {s : Series} {a : ℚ} (h : validVals s = [a]) (q : ℚ) :
    quantile s q = some a := by
  simp only [quantile, h]
  norm_num [List.insertionSort, List.orderedInsert, interpQuantile_singleton]

theorem quantile_empty {s : Series} (h : validVals s = []) (q : ℚ) :
    quantile s q = none := by
  simp [quantile, h, List.insertionSort]

theorem mem_of_validVals_singleton {s : Series} {a : ℚ} (h : validVals s = [a]) :
    ∀ x ∈ s, x = none ∨ x = some a := by
  intro x hx
  cases x with
  | none => exact Or.inl rfl
  | some u =>
    refine Or.inr ?_
    have hu : u ∈ validVals s := List.mem_filterMap.mpr ⟨some u, hx, rfl⟩
    rw [h] at hu
    simp only [List.mem_cons, List.not_mem_nil, or_false] at hu
    rw [hu]

/-- C2 (amended): the detectors never fail.  On a series with fewer than 2
non-missing values (Z-score / IQR) or fewer than `window` non-missing
values (rolling Z-score), a full-length result is still produced and no
point is flagged: the undefined statistics are NaN and every comparison
against NaN is `False`. -/
theorem insufficient_valid_values_all_unflagged (cfg : DetectionConfig) (f : Frame)
    (h : (validVals f.value).length < requiredValid cfg) :
    anomalyCol (runDetect cfg f) = List.replicate f.value.length false := by
  cases cfg with
  | zscoreCfg t =>
    simp only [runDetect, detect_anomalies_zscore, anomalyCol, Option.getD_some,
      List.map_map]
    refine map_eq_replicate_false (fun x _ => ?_)
    rw [Function.comp_apply, svar_none_short (by simpa using h), zscoreVal_var_none]
    rfl
  | iqrCfg m =>
    simp only [runDetect, detect_anomalies_iqr, anomalyCol, Option.getD_some]
    simp only [requiredValid] at h
    interval_cases hlen : (validVals f.value).length
    · have hv : validVals f.value = [] := List.length_eq_zero.mp hlen
      rw [quantile_empty hv, quantile_empty hv]
      refine map_eq_replicate_false (fun x _ => ?_)
      cases x <;> rfl
    · obtain ⟨a, hv⟩ := List.length_eq_one.mp hlen
      rw [quantile_singleton hv, quantile_singleton hv]
      refine map_eq_replicate_false (fun x hx => ?_)
      rcases mem_of_validVals_singleton hv x hx with rfl | rfl
      · rfl
      · have hlo : a - m * (a - a) = a := by ring
        have hhi : a + m * (a - a) = a := by ring
        simp [iqrFlag, hlo, hhi]
  | rollingCfg w t =>
    simp only [runDetect, detect_anomalies_rolling, anomalyCol, Option.getD_some,
      List.map_map]
    rw [map_eq_replicate_false, List.length_range]
    intro i _
    have hle : (validVals (rollWindow f.value w i)).length ≤ (validVals f.value).length :=
      ((rollWindow_sublist f.value w i).filterMap id).length_le
    have hc : ¬ w ≤ (validVals (rollWindow f.value w i)).length := by
      simp only [requiredValid] at h; omega
    rw [Function.comp_apply]
    unfold rollStats
    rw [if_neg hc, zscoreVal_var_none]
    rfl

end AnomalyDetection

namespace AnomalyDetection

theorem oneValueFrame_validVals : validVals oneValueFrame.value = [(5 : ℚ)] := rfl

theorem scenarioFrame_validVals :
    validVals [some (7:ℚ), some 7, some 7, some 7, some 12] = [(7 : ℚ), 7, 7, 7, 12] := rfl

theorem scenarioFrame_smean :
    smean [some (7:ℚ), some 7, some 7, some 7, some 12] = some 8 := by
  simp only [smean, scenarioFrame_validVals]
  norm_num

theorem scenarioFrame_svar :
    svar [some (7:ℚ), some 7, some 7, some 7, some 12] = some 5 := by
  simp only [svar, scenarioFrame_validVals]
  norm_num

theorem scenario_zscoreVal_seven :
    zscoreVal (some 7) (some 8) (some 5) = PVal.sq (1/5) := by
  simp only [zscoreVal]
  norm_num

theorem scenario_zscoreVal_twelve :
    zscoreVal (some 12) (some 8) (some 5) = PVal.sq (16/5) := by
  simp only [zscoreVal]
  norm_num

theorem scenario_gtQ_small : PVal.gtQ (PVal.sq (1/5)) 2 = false := by
  simp only [PVal.gtQ, Bool.or_eq_false_iff, decide_eq_false_iff_not]
  norm_num

theorem scenario_gtQ_large : PVal.gtQ (PVal.sq (16/5)) 2 = false := by
  simp only [PVal.gtQ, Bool.or_eq_false_iff, decide_eq_false_iff_not]
  norm_num

theorem scenarioFrame_zscore_col :
    (detect_anomalies_zscore scenarioFrame 2).zscore =
      some [PVal.sq (1/5), PVal.sq (1/5), PVal.sq (1/5), PVal.sq (1/5), PVal.sq (16/5)] := by
  have hval : scenarioFrame.value = [some (7:ℚ), some 7, some 7, some 7, some 12] := rfl
  simp only [detect_anomalies_zscore, scenarioFrame_smean, scenarioFrame_svar, hval,
    List.map_cons, List.map_nil, scenario_zscoreVal_seven, scenario_zscoreVal_twelve]

theorem scenarioFrame_anomaly_col :
    (detect_anomalies_zscore scenarioFrame 2).anomaly =
      some [false, false, false, false, false] := by
  have hval : scenarioFrame.value = [some (7:ℚ), some 7, some 7, some 7, some 12] := rfl
  simp only [detect_anomalies_zscore, scenarioFrame_smean, scenarioFrame_svar, hval,
    List.map_cons, List.map_nil, scenario_zscoreVal_seven, scenario_zscoreVal_twelve,
    scenario_gtQ_small, scenario_gtQ_large]

/-- Witness for C2 (amended) at the one-row frame `[5]` under the Z-score
method: one valid value is below the requirement of two, and the produced
flag column is `[false]`. -/
theorem insufficient_valid_values_all_unflagged_witness :
    (validVals oneValueFrame.value).length < requiredValid (DetectionConfig.zscoreCfg 3) ∧
    anomalyCol (runDetect (DetectionConfig.zscoreCfg 3) oneValueFrame) =
      List.replicate oneValueFrame.value.length false := by
  have h : (validVals oneValueFrame.value).length <
      requiredValid (DetectionConfig.zscoreCfg 3) := by
    rw [oneValueFrame_validVals]
    decide
  exact ⟨h,
    insufficient_valid_values_all_unflagged (DetectionConfig.zscoreCfg 3) oneValueFrame h⟩

/-- Counterexample to C2 as stated: on the series `[5]` — a single
non-missing value, fewer than the two the claim says Z-score requires —
the Z-score detector does not fail; it returns a frame carrying a
full-length result sequence (`anomaly = [false]`), the input column
untouched. -/
theorem short_series_produces_results :
    (detect_anomalies_zscore oneValueFrame 3).anomaly = some [false] ∧
    (detect_anomalies_zscore oneValueFrame 3).value = oneValueFrame.value := by
  have hval : oneValueFrame.value = [some (5:ℚ)] := rfl
  have hs : svar oneValueFrame.value = none := by
    apply svar_none_short
    rw [oneValueFrame_validVals]
    decide
  constructor
  · simp only [detect_anomalies_zscore, hs, hval, List.map_cons, List.map_nil,
      zscoreVal_var_none]
    rfl
  · rfl

/-- C3 (amended): on the spec's worked series `[7, 7, 7, 7, 12]` the exact
statistics are mean `8` (not 8.2), sample variance `5` (σ = √5 ≈ 2.236),
squared z-scores `[1/5, 1/5, 1/5, 1/5, 16/5]` (z ≈ 0.447, 0.447, 0.447,
0.447, 1.789), and at threshold 2 no point at all is flagged. -/
theorem scenario_series_exact_statistics :
    smean scenarioFrame.value = some 8 ∧
    svar scenarioFrame.value = some 5 ∧
    (detect_anomalies_zscore scenarioFrame 2).zscore =
      some [PVal.sq (1/5), PVal.sq (1/5), PVal.sq (1/5), PVal.sq (1/5), PVal.sq (16/5)] ∧
    (detect_anomalies_zscore scenarioFrame 2).anomaly =
      some [false, false, false, false, false] :=
  ⟨scenarioFrame_smean, scenarioFrame_svar, scenarioFrame_zscore_col,
    scenarioFrame_anomaly_col⟩

/-- Counterexample to C3 as stated: on `[7, 7, 7, 7, 12]` the computed
mean differs from the claimed 8.2, and the flag vector differs from
"exactly the last point flagged" (nothing is flagged at threshold 2). -/
theorem scenario_series_not_as_spec :
    smean scenarioFrame.value ≠ some (41/5) ∧
    (detect_anomalies_zscore scenarioFrame 2).anomaly ≠
      some [false, false, false, false, true] := by
  constructor
  · have hval : scenarioFrame.value = [some (7:ℚ), some 7, some 7, some 7, some 12] := rfl
    rw [hval, scenarioFrame_smean]
    intro h
    have h8 := Option.some.inj h
    norm_num at h8
  · rw [scenarioFrame_anomaly_col]
    intro h
    have hl := Option.some.inj h
    simp at hl

end AnomalyDetection

namespace AnomalyDetection

/-- Counterexample to C9 as stated: running the Z-score detector on a
fresh frame leaves the caller's DataFrame changed — Python's in-place
column assignments mean the caller's object after the call
(`callerFrameAfterZscore`) is the returned frame, which now carries
`zscore` and `anomaly` columns the input did not have.  `detect` is not a
pure function returning a fresh value. -/
theorem detector_mutates_caller_frame :
    callerFrameAfterZscore freshFrame 3 ≠ freshFrame := by
  intro h
  have ha := congrArg Frame.anomaly h
  simp only [callerFrameAfterZscore, detect_anomalies_zscore, freshFrame] at ha
  exact Option.noConfusion ha

/-- C9 (amended): although the detectors write result columns into the
caller's frame in place, they never alter the `timestamp` or the selected
value column — the series data itself is left unchanged by all three
detectors. -/
theorem detectors_preserve_value_and_timestamp (f : Frame) (t m : ℚ) (w : ℕ) :
    ((detect_anomalies_zscore f t).value = f.value ∧
      (detect_anomalies_zscore f t).timestamp = f.timestamp) ∧
    ((detect_anomalies_iqr f m).value = f.value ∧
      (detect_anomalies_iqr f m).timestamp = f.timestamp) ∧
    ((detect_anomalies_rolling f w t).value = f.value ∧
      (detect_anomalies_rolling f w t).timestamp = f.timestamp) :=
  ⟨⟨rfl, rfl⟩, ⟨rfl, rfl⟩, ⟨rfl, rfl⟩⟩

/-- C5 (amended): the rolling detector never flags any of the first
`⌊w/2⌋` rows, and never any of the last `⌊(w-1)/2⌋` rows (for odd `w`
these two counts agree with the claimed `⌊w/2⌋`; for even `w` the trailing
guarantee is one row shorter, because pandas centres an even window with
the label right of centre).  At such rows the clipped window holds fewer
than `w` rows, the rolling statistics are NaN, and `NaN > t` is `False`. -/
theorem rolling_edge_points_unflagged (f : Frame) (w : ℕ) (t : ℚ) (i : ℕ)
    (h : i < w / 2 ∨ f.value.length ≤ i + (w - 1) / 2) :
    (anomalyCol (detect_anomalies_rolling f w t)).getD i false = false := by
  by_cases hi : i < f.value.length
  · simp only [detect_anomalies_rolling, anomalyCol, Option.getD_some, List.map_map]
    rw [getD_range_map _ hi]
    have hlen : (rollWindow f.value w i).length < w := by
      simp only [rollWindow, rollOff, List.length_drop, List.length_take]
      omega
    have hcnt : (validVals (rollWindow f.value w i)).length < w :=
      lt_of_le_of_lt (List.length_filterMap_le _ _) hlen
    rw [Function.comp_apply]
    unfold rollStats
    rw [if_neg (by omega), zscoreVal_var_none]
    rfl
  · refine getD_of_length_le ?_
    simp only [detect_anomalies_rolling, anomalyCol, Option.getD_some, List.length_map,
      List.length_range]
    omega

/-- Witness for C5 (amended): window 3 (odd) on the three-row constant
frame — row 0 is within the first `⌊3/2⌋ = 1` rows and row 2 within the
last `⌊(3-1)/2⌋ = 1` rows; neither is flagged. -/
theorem rolling_edge_points_unflagged_witness :
    (0 < 3 / 2 ∨ constantFrame.value.length ≤ 0 + (3 - 1) / 2) ∧
    (anomalyCol (detect_anomalies_rolling constantFrame 3 (1/2))).getD 0 false = false ∧
    (2 < 3 / 2 ∨ constantFrame.value.length ≤ 2 + (3 - 1) / 2) ∧
    (anomalyCol (detect_anomalies_rolling constantFrame 3 (1/2))).getD 2 false = false :=
  ⟨Or.inl (by decide),
    rolling_edge_points_unflagged constantFrame 3 (1/2) 0 (Or.inl (by decide)),
    Or.inr (by decide),
    rolling_edge_points_unflagged constantFrame 3 (1/2) 2 (Or.inr (by decide))⟩

theorem twoPoint_rollWindow_zero :
    rollWindow twoPointFrame.value 2 0 = [some (0:ℚ)] := rfl

theorem twoPoint_rollWindow_one :
    rollWindow twoPointFrame.value 2 1 = [some (0:ℚ), some 1] := rfl

theorem twoPoint_smean : smean [some (0:ℚ), some 1] = some (1/2) := by
  have hv : validVals [some (0:ℚ), some 1] = [(0:ℚ), 1] := rfl
  simp only [smean, hv]
  norm_num

theorem twoPoint_svar : svar [some (0:ℚ), some 1] = some (1/2) := by
  have hv : validVals [some (0:ℚ), some 1] = [(0:ℚ), 1] := rfl
  simp only [svar, hv]
  norm_num

theorem twoPoint_rollStats_zero :
    rollStats twoPointFrame.value 2 0 = (none, none) := by
  unfold rollStats
  rw [twoPoint_rollWindow_zero, if_neg (by decide)]

theorem twoPoint_rollStats_one :
    rollStats twoPointFrame.value 2 1 = (some (1/2), some (1/2)) := by
  unfold rollStats
  rw [twoPoint_rollWindow_one, if_pos (by decide), twoPoint_smean, twoPoint_svar]

theorem twoPoint_zscoreVal :
    zscoreVal (some 1) (some (1/2)) (some (1/2)) = PVal.sq (1/2) := by
  simp only [zscoreVal]
  norm_num

theorem twoPoint_gtQ : PVal.gtQ (PVal.sq (1/2)) (1/2) = true := by
  simp only [PVal.gtQ, Bool.or_eq_true, decide_eq_true_eq]
  norm_num

/-- Counterexample to C5 as stated: with the even window `w = 2` and
threshold `1/2` on the series `[0, 1]`, the last row — which lies within
the last `⌊w/2⌋ = 1` rows, where the claim says nothing is ever flagged —
is flagged: pandas places an even centered window with the label right of
centre, so the last row has a complete window `[0, 1]` and score
`√½ / ½... = √(1/2) > 1/2`. -/
theorem rolling_even_window_last_point_flagged :
    (detect_anomalies_rolling twoPointFrame 2 (1/2)).anomaly = some [false, true] := by
  have hn : twoPointFrame.value.length = 2 := rfl
  have hr : List.range 2 = [0, 1] := rfl
  have hg0 : twoPointFrame.value.getD 0 none = some 0 := rfl
  have hg1 : twoPointFrame.value.getD 1 none = some 1 := rfl
  simp only [detect_anomalies_rolling, hn, hr, List.map_cons, List.map_nil, hg0, hg1,
    twoPoint_rollStats_zero, twoPoint_rollStats_one, twoPoint_zscoreVal, twoPoint_gtQ]
  rfl

end AnomalyDetection

namespace AnomalyDetection

theorem ratFloorNat_eq (q : ℚ) : ratFloorNat q = (⌊q⌋).toNat := by
  rw [ratFloorNat, Rat.floor_def]

theorem ratFloorNat_le {h : ℚ} (h0 : 0 ≤ h) : (ratFloorNat h : ℚ) ≤ h := by
  rw [ratFloorNat_eq]
  have hf : (0:ℤ) ≤ ⌊h⌋ := Int.floor_nonneg.mpr h0
  have : ((⌊h⌋.toNat : ℤ) : ℚ) = ((⌊h⌋ : ℤ) : ℚ) := by
    rw [Int.toNat_of_nonneg hf]
  push_cast at this
  rw [this]
  exact Int.floor_le h

theorem lt_ratFloorNat_add_one {h : ℚ} (h0 : 0 ≤ h) : h < (ratFloorNat h : ℚ) + 1 := by
  rw [ratFloorNat_eq]
  have hf : (0:ℤ) ≤ ⌊h⌋ := Int.floor_nonneg.mpr h0
  have heq : ((⌊h⌋.toNat : ℤ) : ℚ) = ((⌊h⌋ : ℤ) : ℚ) := by
    rw [Int.toNat_of_nonneg hf]
  push_cast at heq
  rw [heq]
  exact Int.lt_floor_add_one h

theorem ratFloorNat_mono {h1 h2 : ℚ} (h12 : h1 ≤ h2) :
    ratFloorNat h1 ≤ ratFloorNat h2 := by
  rw [ratFloorNat_eq, ratFloorNat_eq]
  exact Int.toNat_le_toNat (Int.floor_mono h12)

theorem ratFloorNat_le_of_le_nat {h : ℚ} {c : ℕ} (hc : h ≤ (c : ℚ)) :
    ratFloorNat h ≤ c := by
  rw [ratFloorNat_eq]
  have : ⌊h⌋ ≤ (c : ℤ) := by
    have := Int.floor_mono hc
    simpa using this
  omega

theorem sorted_getD_mono {v : List ℚ} (hs : List.Sorted (· ≤ ·) v) {i j : ℕ}
    (hij : i ≤ j) (hj : j < v.length) : v.getD i 0 ≤ v.getD j 0 := by
  have hi : i < v.length := lt_of_le_of_lt hij hj
  rw [List.getD_eq_getElem?_getD, List.getElem?_eq_getElem hi,
    List.getD_eq_getElem?_getD, List.getElem?_eq_getElem hj]
  simp only [Option.getD_some]
  exact List.Sorted.rel_get_of_le hs (show (⟨i, hi⟩ : Fin v.length) ≤ ⟨j, hj⟩ from hij)

theorem interp_formula_mono {v : List ℚ} (hs : List.Sorted (· ≤ ·) v)
    (hv : 0 < v.length) {hA hB : ℚ} (hA0 : 0 ≤ hA) (hAB : hA ≤ hB)
    (hBle : hB ≤ (v.length : ℚ) - 1) :
    v.getD (ratFloorNat hA) 0 + (hA - (ratFloorNat hA : ℚ)) *
        (v.getD (min (ratFloorNat hA + 1) (v.length - 1)) 0 - v.getD (ratFloorNat hA) 0) ≤
      v.getD (ratFloorNat hB) 0 + (hB - (ratFloorNat hB : ℚ)) *
        (v.getD (min (ratFloorNat hB + 1) (v.length - 1)) 0 - v.getD (ratFloorNat hB) 0) := by
  have hB0 : 0 ≤ hB := le_trans hA0 hAB
  have hncast : ((v.length - 1 : ℕ) : ℚ) = (v.length : ℚ) - 1 := by
    push_cast [Nat.cast_sub (by omega : 1 ≤ v.length)]
    ring
  have hiB_le : ratFloorNat hB ≤ v.length - 1 :=
    ratFloorNat_le_of_le_nat (by rw [hncast]; exact hBle)
  have hiA_le : ratFloorNat hA ≤ v.length - 1 :=
    le_trans (ratFloorNat_mono hAB) hiB_le
  have hfA0 : (ratFloorNat hA : ℚ) ≤ hA := ratFloorNat_le hA0
  have hfA1 : hA < (ratFloorNat hA : ℚ) + 1 := lt_ratFloorNat_add_one hA0
  have hfB0 : (ratFloorNat hB : ℚ) ≤ hB := ratFloorNat_le hB0
  have hvij_A : v.getD (ratFloorNat hA) 0 ≤
      v.getD (min (ratFloorNat hA + 1) (v.length - 1)) 0 :=
    sorted_getD_mono hs (by omega) (by omega)
  have hvij_B : v.getD (ratFloorNat hB) 0 ≤
      v.getD (min (ratFloorNat hB + 1) (v.length - 1)) 0 :=
    sorted_getD_mono hs (by omega) (by omega)
  by_cases hcase : ratFloorNat hA = ratFloorNat hB
  · rw [hcase]
    nlinarith [hvij_B, sub_nonneg.mpr hAB]
  · have hlt : ratFloorNat hA < ratFloorNat hB :=
      lt_of_le_of_ne (ratFloorNat_mono hAB) hcase
    have step1 : v.getD (ratFloorNat hA) 0 + (hA - (ratFloorNat hA : ℚ)) *
        (v.getD (min (ratFloorNat hA + 1) (v.length - 1)) 0 - v.getD (ratFloorNat hA) 0) ≤
        v.getD (min (ratFloorNat hA + 1) (v.length - 1)) 0 := by
      nlinarith [hvij_A, hfA0, hfA1]
    have step2 : v.getD (min (ratFloorNat hA + 1) (v.length - 1)) 0 ≤
        v.getD (ratFloorNat hB) 0 :=
      sorted_getD_mono hs (by omega) (by omega)
    have step3 : v.getD (ratFloorNat hB) 0 ≤ v.getD (ratFloorNat hB) 0 +
        (hB - (ratFloorNat hB : ℚ)) *
        (v.getD (min (ratFloorNat hB + 1) (v.length - 1)) 0 - v.getD (ratFloorNat hB) 0) := by
      nlinarith [hvij_B, hfB0]
    linarith

theorem interpQuantile_le_interpQuantile {v : List ℚ} (hs : List.Sorted (· ≤ ·) v)
    (hv : 0 < v.length) {a b : ℚ} (ha : 0 ≤ a) (hab : a ≤ b) (hb : b ≤ 1) :
    interpQuantile v a ≤ interpQuantile v b := by
  simp only [interpQuantile]
  have hn1 : (1:ℚ) ≤ (v.length : ℚ) := by exact_mod_cast hv
  exact interp_formula_mono hs hv (mul_nonneg ha (by linarith))
    (mul_le_mul_of_nonneg_right hab (by linarith)) (by nlinarith)

theorem quantile_mono {s : Series} {a b : ℚ} (ha : 0 ≤ a) (hab : a ≤ b) (hb : b ≤ 1)
    {qa qb : ℚ} (hqa : quantile s a = some qa) (hqb : quantile s b = some qb) :
    qa ≤ qb := by
  simp only [quantile] at hqa hqb
  by_cases hl : (List.insertionSort (· ≤ ·) (validVals s)).length = 0
  · rw [if_pos hl] at hqa
    exact absurd hqa (by simp)
  · rw [if_neg hl] at hqa hqb
    have hs : List.Sorted (· ≤ ·) (List.insertionSort (· ≤ ·) (validVals s)) :=
      List.sorted_insertionSort _ _
    have := interpQuantile_le_interpQuantile hs (by omega) ha hab hb
    rw [Option.some.inj hqa, Option.some.inj hqb] at this
    exact this

end AnomalyDetection

namespace AnomalyDetection

/-- C4: the IQR detector's reported bounds satisfy
`lower ≤ Q1 ≤ Q3 ≤ upper`; for multipliers `0 < m1 ≤ m2` the `m2` bounds
contain the `m1` bounds, and raising the multiplier never increases the
number of flagged points. -/
theorem iqr_bounds_order_and_multiplier_monotone (f : Frame) (m1 m2 : ℚ)
    (hm1 : 0 < m1) (hm12 : m1 ≤ m2) (q1 q3 : ℚ)
    (hq1 : quantile f.value (1/4) = some q1)
    (hq3 : quantile f.value (3/4) = some q3) :
    ((detect_anomalies_iqr f m1).lower_bound = some (some (q1 - m1 * (q3 - q1))) ∧
      (detect_anomalies_iqr f m1).upper_bound = some (some (q3 + m1 * (q3 - q1))) ∧
      q1 - m1 * (q3 - q1) ≤ q1 ∧ q1 ≤ q3 ∧ q3 ≤ q3 + m1 * (q3 - q1)) ∧
    (q1 - m2 * (q3 - q1) ≤ q1 - m1 * (q3 - q1) ∧
      q3 + m1 * (q3 - q1) ≤ q3 + m2 * (q3 - q1)) ∧
    (anomalyCol (detect_anomalies_iqr f m2)).count true ≤
      (anomalyCol (detect_anomalies_iqr f m1)).count true := by
  have hq13 : q1 ≤ q3 :=
    quantile_mono (by norm_num) (by norm_num) (by norm_num) hq1 hq3
  have hd : 0 ≤ q3 - q1 := by linarith
  have hmul : m1 * (q3 - q1) ≤ m2 * (q3 - q1) :=
    mul_le_mul_of_nonneg_right hm12 hd
  have hmul1 : 0 ≤ m1 * (q3 - q1) := mul_nonneg hm1.le hd
  refine ⟨⟨?_, ?_, by linarith, hq13, by linarith⟩, ⟨by linarith, by linarith⟩, ?_⟩
  · simp only [detect_anomalies_iqr, hq1, hq3]
  · simp only [detect_anomalies_iqr, hq1, hq3]
  · simp only [detect_anomalies_iqr, hq1, hq3, anomalyCol, Option.getD_some]
    refine count_true_map_le _ _ f.value (fun x _ hx => ?_)
    cases x with
    | none => rw [iqrFlag_none] at hx; exact absurd hx (by simp)
    | some u =>
      simp only [iqrFlag, Bool.or_eq_true, decide_eq_true_eq] at hx ⊢
      rcases hx with hlo | hhi
      · exact Or.inl (by linarith)
      · exact Or.inr (by linarith)

theorem fourPoint_sorted :
    List.insertionSort (· ≤ ·) [(1:ℚ), 2, 3, 10] = [(1:ℚ), 2, 3, 10] := by
  norm_num [List.insertionSort, List.orderedInsert]

theorem fourPoint_q1 : quantile fourPointFrame.value (1/4) = some (7/4) := by
  have hv : validVals fourPointFrame.value = [(1:ℚ), 2, 3, 10] := rfl
  simp only [quantile, hv, fourPoint_sorted]
  rw [if_neg (by decide)]
  congr 1
  have hfl : ratFloorNat ((1:ℚ)/4 * (((4:ℕ) : ℚ) - 1)) = 0 := by
    rw [ratFloorNat_eq]
    norm_num
  simp only [interpQuantile, List.length_cons, List.length_nil, hfl]
  norm_num [List.getD]

theorem fourPoint_q3 : quantile fourPointFrame.value (3/4) = some (19/4) := by
  have hv : validVals fourPointFrame.value = [(1:ℚ), 2, 3, 10] := rfl
  simp only [quantile, hv, fourPoint_sorted]
  rw [if_neg (by decide)]
  congr 1
  have hfl : ratFloorNat ((3:ℚ)/4 * (((4:ℕ) : ℚ) - 1)) = 2 := by
    rw [ratFloorNat_eq]
    norm_num
    rfl
  simp only [interpQuantile, List.length_cons, List.length_nil, hfl]
  norm_num [List.getD]

/-- Witness for C4 on the series `[1, 2, 3, 10]` with multipliers 1 and 2:
`Q1 = 7/4`, `Q3 = 19/4`. -/
theorem iqr_bounds_order_and_multiplier_monotone_witness :
    (0:ℚ) < 1 ∧ (1:ℚ) ≤ 2 ∧
    quantile fourPointFrame.value (1/4) = some (7/4) ∧
    quantile fourPointFrame.value (3/4) = some (19/4) ∧
    ((detect_anomalies_iqr fourPointFrame 1).lower_bound =
        some (some ((7:ℚ)/4 - 1 * (19/4 - 7/4))) ∧
      (anomalyCol (detect_anomalies_iqr fourPointFrame 2)).count true ≤
        (anomalyCol (detect_anomalies_iqr fourPointFrame 1)).count true) := by
  have h := iqr_bounds_order_and_multiplier_monotone fourPointFrame 1 2
    (by norm_num) (by norm_num) (7/4) (19/4) fourPoint_q1 fourPoint_q3
  exact ⟨by norm_num, by norm_num, fourPoint_q1, fourPoint_q3, h.1.1, h.2.2⟩

end AnomalyDetection

namespace AnomalyDetection

/-- C8 (amended): for every fleet input and every configuration the
summary is sorted in descending order of `Anomaly %` — a deterministic
function of the input.  (No tie-break is applied by the code; see the
accompanying counterexample for the tie order.) -/
theorem summarize_sorted_descending (ns : ℕ) (cols : ℕ → String → Option Series)
    (cfg : DetectionConfig) :
    List.Sorted (fun a b => b.anomalyPercent ≤ a.anomalyPercent)
      (summarize ns cols cfg) := by
  unfold summarize pandasSortValuesDesc
  have hs : List.Sorted rowLE (List.insertionSort rowLE (summaryRows ns cols cfg)) :=
    List.sorted_insertionSort rowLE _
  exact List.pairwise_reverse.mpr hs

theorem tieFleet_flag_col_one :
    anomalyCol (runDetect (DetectionConfig.zscoreCfg 3)
      { timestamp := [], value := [some (1:ℚ), some 1] }) = [false, false] := by
  have hc : ∀ x ∈ [some (1:ℚ), some 1], x = some 1 := by
    intro x hx
    simp only [List.mem_cons, List.not_mem_nil, or_false] at hx
    rcases hx with rfl | rfl <;> rfl
  simp only [runDetect, detect_anomalies_zscore, anomalyCol, Option.getD_some,
    List.map_map]
  exact map_eq_replicate_false (fun x hx => zscore_flag_const hc hx 3)

theorem tieFleet_flag_col_two :
    anomalyCol (runDetect (DetectionConfig.zscoreCfg 3)
      { timestamp := [], value := [some (2:ℚ), some 2] }) = [false, false] := by
  have hc : ∀ x ∈ [some (2:ℚ), some 2], x = some 2 := by
    intro x hx
    simp only [List.mem_cons, List.not_mem_nil, or_false] at hx
    rcases hx with rfl | rfl <;> rfl
  simp only [runDetect, detect_anomalies_zscore, anomalyCol, Option.getD_some,
    List.map_map]
  exact map_eq_replicate_false (fun x hx => zscore_flag_const hc hx 3)

theorem tieFleet_row_ph :
    mkSummaryRow (DetectionConfig.zscoreCfg 3) 1 "ph" [some (1:ℚ), some 1] =
      { sensorId := 1, param := "ph", totalPoints := 2, anomalies := 0,
        anomalyPercent := 0 } := by
  simp only [mkSummaryRow, tieFleet_flag_col_one]
  norm_num

theorem tieFleet_row_temp :
    mkSummaryRow (DetectionConfig.zscoreCfg 3) 1 "temp" [some (2:ℚ), some 2] =
      { sensorId := 1, param := "temp", totalPoints := 2, anomalies := 0,
        anomalyPercent := 0 } := by
  simp only [mkSummaryRow, tieFleet_flag_col_two]
  norm_num

theorem tieFleet_rows :
    summaryRows 1 tieFleetCols (DetectionConfig.zscoreCfg 3) =
      [{ sensorId := 1, param := "ph", totalPoints := 2, anomalies := 0,
          anomalyPercent := 0 },
        { sensorId := 1, param := "temp", totalPoints := 2, anomalies := 0,
          anomalyPercent := 0 }] := by
  have ht1 : tieFleetCols 1 "ph" = some [some (1:ℚ), some 1] := rfl
  have ht2 : tieFleetCols 1 "temp" = some [some (2:ℚ), some 2] := rfl
  have ht3 : tieFleetCols 1 "conductivity" = none := rfl
  have ht4 : tieFleetCols 1 "dissolved_oxygen" = none := rfl
  have ht5 : tieFleetCols 1 "turbidity" = none := rfl
  have hr : List.range 1 = [0] := rfl
  simp only [summaryRows, hr, List.flatMap_cons, List.flatMap_nil, List.append_nil,
    paramCodes, List.filterMap_cons, Nat.zero_add, ht1, ht2, ht3, ht4, ht5,
    Option.map_some', Option.map_none', List.filterMap_nil, tieFleet_row_ph,
    tieFleet_row_temp]

/-- Counterexample to C8 as stated: a fleet of one sensor with two
constant columns produces two rows tied at `Anomaly % = 0`, and the
summary lists `(1, "temp")` before `(1, "ph")` — the reverse of the
claimed ascending `(sensor_id, parameter)` tie order.  pandas
`sort_values(ascending=False)` reverses a (here stable) ascending argsort
and applies no tie-break. -/
theorem summarize_tie_order_not_ascending :
    (summarize 1 tieFleetCols (DetectionConfig.zscoreCfg 3)).map
      (fun r => (r.sensorId, r.param)) = [(1, "temp"), (1, "ph")] := by
  unfold summarize pandasSortValuesDesc
  rw [tieFleet_rows]
  have hle : rowLE
      { sensorId := 1, param := "ph", totalPoints := 2, anomalies := 0,
        anomalyPercent := 0 }
      { sensorId := 1, param := "temp", totalPoints := 2, anomalies := 0,
        anomalyPercent := 0 } := le_refl (0:ℚ)
  have hsorted : List.insertionSort rowLE
      [{ sensorId := 1, param := "ph", totalPoints := 2, anomalies := 0,
          anomalyPercent := 0 },
        { sensorId := 1, param := "temp", totalPoints := 2, anomalies := 0,
          anomalyPercent := 0 }] =
      [{ sensorId := 1, param := "ph", totalPoints := 2, anomalies := 0,
          anomalyPercent := 0 },
        { sensorId := 1, param := "temp", totalPoints := 2, anomalies := 0,
          anomalyPercent := 0 }] := by
    simp only [List.insertionSort, List.orderedInsert]
    rw [if_pos hle]
  rw [hsorted]
  rfl

end AnomalyDetection

namespace AnomalyDetection

theorem sum_map_affine (xs : List ℚ) (a b : ℚ) :
    (xs.map (fun x => a * x + b)).sum = a * xs.sum + (xs.length : ℚ) * b := by
  induction xs with
  | nil => simp
  | cons x t ih =>
    simp only [List.map_cons, List.sum_cons, List.length_cons, ih]
    push_cast
    ring

theorem sum_map_mul_left (xs : List ℚ) (f : ℚ → ℚ) (c : ℚ) :
    (xs.map (fun x => c * f x)).sum = c * (xs.map f).sum := by
  induction xs with
  | nil => simp
  | cons x t ih =>
    simp only [List.map_cons, List.sum_cons, ih]
    ring

theorem zip_self_map (xs : List ℚ) (f : ℚ → ℚ) :
    xs.zip (xs.map f) = xs.map (fun x => (x, f x)) := by
  induction xs with
  | nil => rfl
  | cons x t ih => simp [List.zip_cons_cons, ih]

theorem qmean_affine (xs : List ℚ) (a b : ℚ) (hn : xs.length ≠ 0) :
    qmean (xs.map (fun x => a * x + b)) = a * qmean xs + b := by
  have hq : (xs.length : ℚ) ≠ 0 := Nat.cast_ne_zero.mpr hn
  unfold qmean
  rw [List.length_map, sum_map_affine]
  field_simp
  ring

theorem qvar_affine (xs : List ℚ) (a b : ℚ) (hn : xs.length ≠ 0) :
    qvar (xs.map (fun x => a * x + b)) = a ^ 2 * qvar xs := by
  unfold qvar
  rw [List.length_map, qmean_affine xs a b hn, List.map_map]
  have hfun : ((fun x => (x - (a * qmean xs + b)) ^ 2) ∘ (fun x => a * x + b)) =
      fun x => a ^ 2 * (x - qmean xs) ^ 2 := by
    funext x
    simp only [Function.comp_apply]
    ring
  rw [hfun, sum_map_mul_left]
  ring

theorem qcov_affine (xs : List ℚ) (a b : ℚ) (hn : xs.length ≠ 0) :
    qcov xs (xs.map (fun x => a * x + b)) = a * qvar xs := by
  unfold qcov qvar
  rw [qmean_affine xs a b hn, zip_self_map, List.map_map]
  have hfun : ((fun p : ℚ × ℚ => (p.1 - qmean xs) * (p.2 - (a * qmean xs + b))) ∘
      (fun x => (x, a * x + b))) = fun x => a * (x - qmean xs) ^ 2 := by
    funext x
    simp only [Function.comp_apply]
    ring
  rw [hfun, sum_map_mul_left]
  ring

/-- C6: on a pair of series one of which is an exact (non-constant) affine
function of the other — a non-constant `x` and `y = a·x + b`, `a ≠ 0` —
the correlation-anomaly computation fails with the singular-covariance
error: the standardized covariance matrix has determinant
`1 - (a·vx)²/(vx·a²·vx) = 0` and `np.linalg.inv` raises, uncaught by the
dashboard. -/
theorem affine_dependent_pair_singular_covariance (xs : List ℚ) (a b : ℚ)
    (ha : a ≠ 0) (hn : 2 ≤ xs.length) (hvx : qvar xs ≠ 0) :
    detectCorrelationAnomalies xs (xs.map (fun x => a * x + b)) =
      Except.error CorrErr.singularCovariance := by
  have hn0 : xs.length ≠ 0 := by omega
  have hvy : qvar (xs.map (fun x => a * x + b)) = a ^ 2 * qvar xs :=
    qvar_affine xs a b hn0
  have hcov : qcov xs (xs.map (fun x => a * x + b)) = a * qvar xs :=
    qcov_affine xs a b hn0
  have hnot : ¬ (xs.length < 2 ∨ qvar xs = 0 ∨
      qvar (xs.map (fun x => a * x + b)) = 0) := by
    push_neg
    exact ⟨by omega, hvx, by rw [hvy]; exact mul_ne_zero (pow_ne_zero 2 ha) hvx⟩
  have hdet : 1 - qcov xs (xs.map (fun x => a * x + b)) ^ 2 /
      (qvar xs * qvar (xs.map (fun x => a * x + b))) = 0 := by
    rw [hcov, hvy]
    field_simp
    ring
  simp only [detectCorrelationAnomalies]
  rw [if_neg hnot, if_pos hdet]

theorem pair_qvar : qvar [(1:ℚ), 2] = 1/2 := by
  norm_num [qvar, qmean]

/-- Witness for C6 at `x = [1, 2]`, `y = 2·x + 1 = [3, 5]`. -/
theorem affine_dependent_pair_singular_covariance_witness :
    (2:ℚ) ≠ 0 ∧ 2 ≤ [(1:ℚ), 2].length ∧ qvar [(1:ℚ), 2] ≠ 0 ∧
    detectCorrelationAnomalies [(1:ℚ), 2] ([(1:ℚ), 2].map (fun x => 2 * x + 1)) =
      Except.error CorrErr.singularCovariance := by
  have hv : qvar [(1:ℚ), 2] ≠ 0 := by rw [pair_qvar]; norm_num
  exact ⟨by norm_num, by norm_num, hv,
    affine_dependent_pair_singular_covariance [(1:ℚ), 2] 2 1 (by norm_num)
      (by norm_num) hv⟩

end AnomalyDetection

namespace TrendAnalysis

open AnomalyDetection

theorem validVals_length_all_some {xs : Series}
    (h : ¬ xs.any (fun c => c.isNone) = true) :
    (validVals xs).length = xs.length := by
  induction xs with
  | nil => rfl
  | cons x t ih =>
    simp only [List.any_cons, Bool.or_eq_true] at h
    push_neg at h
    cases x with
    | none => simp at h
    | some u =>
      simp only [validVals, List.filterMap_cons, id_eq, List.length_cons]
      rw [← validVals, ih h.2]

/-- C7 (amended): `decompose` on fewer than 14 daily points fails with
`InsufficientData`; whenever it succeeds, the four components are aligned
(equal length) and `observed = trend + seasonal + residual` pointwise at
every index where trend, seasonal and residual are all defined.  (On 14 or
more points it succeeds exactly when no value is missing; a missing value
makes it fail with the missing-values error instead — see the
counterexample.) -/
theorem decompose_gate_and_additive_identity (xs : Series) :
    (xs.length < 14 → decompose xs = Except.error DecompErr.insufficientData) ∧
    (∀ r : DecompResult, decompose xs = Except.ok r →
      (r.observed.length = xs.length ∧ r.trend.length = xs.length ∧
        r.seasonal.length = xs.length ∧ r.resid.length = xs.length) ∧
      (∀ i a b c, r.trend.getD i none = some a → r.seasonal.getD i none = some b →
        r.resid.getD i none = some c → r.observed.getD i 0 = a + b + c)) := by
  constructor
  · intro h
    simp only [decompose]
    rw [if_pos h]
  · intro r hr
    simp only [decompose] at hr
    by_cases h14 : xs.length < 14
    · rw [if_pos h14] at hr
      exact absurd hr (by simp)
    · rw [if_neg h14] at hr
      by_cases hnan : xs.any (fun c => c.isNone) = true
      · rw [if_pos hnan] at hr
        exact absurd hr (by simp)
      · rw [if_neg hnan] at hr
        have hr' := Except.ok.inj hr
        subst hr'
        have hvl : (validVals xs).length = xs.length := validVals_length_all_some hnan
        constructor
        · refine ⟨hvl, ?_, ?_, ?_⟩ <;>
            simp [List.length_map, List.length_range, hvl]
        · intro i a b c hT hS hR
          by_cases hi : i < (validVals xs).length
          · rw [getD_range_map _ hi] at hT hS hR
            have hD : detrendAt (validVals xs) i =
                some ((validVals xs).getD i 0 - a) := by
              rw [detrendAt, hT]
              rfl
            simp only [residAt, hD, hS] at hR
            have hc := Option.some.inj hR
            simp only
            linarith
          · rw [getD_of_length_le
              (by simp only [List.length_map, List.length_range]; omega)] at hT
            exact absurd hT (by simp)

/-- Counterexample to C7 as stated: a 14-point daily series with one
missing day (as `resample('D').mean()` produces for a gap day) does not
return components — statsmodels raises on missing values and the dashboard
surfaces an error instead. -/
theorem decompose_missing_value_errors :
    14 ≤ daily14gap.length ∧
    decompose daily14gap = Except.error DecompErr.missingValues := by
  constructor
  · simp [daily14gap]
  · simp only [decompose]
    rw [if_neg (by simp [daily14gap]), if_pos (by decide)]

theorem daily14_validVals : validVals daily14 = List.replicate 14 (5:ℚ) := rfl

theorem trendAt_daily14 {i : ℕ} (h1 : 3 ≤ i) (h2 : i + 4 ≤ 14) :
    trendAt (List.replicate 14 (5:ℚ)) i = some 5 := by
  simp only [trendAt, List.length_replicate]
  rw [if_pos ⟨h1, h2⟩, List.drop_replicate, List.take_replicate]
  have hmin : 7 ⊓ (14 - (i - 3)) = 7 := by omega
  rw [hmin]
  simp only [List.sum_replicate, nsmul_eq_mul]
  norm_num

theorem getD_replicate_five {i : ℕ} (h : i < 14) :
    (List.replicate 14 (5:ℚ)).getD i 0 = 5 := by
  rw [List.getD_eq_getElem?_getD, List.getElem?_replicate, if_pos h]
  rfl

theorem detrendAt_daily14 {i : ℕ} (h1 : 3 ≤ i) (h2 : i + 4 ≤ 14) :
    detrendAt (List.replicate 14 (5:ℚ)) i = some 0 := by
  rw [detrendAt, trendAt_daily14 h1 h2, Option.map_some', getD_replicate_five (by omega)]
  norm_num

theorem detrendAt_daily14_none {i : ℕ} (h : ¬ (3 ≤ i ∧ i + 4 ≤ 14)) :
    detrendAt (List.replicate 14 (5:ℚ)) i = none := by
  rw [detrendAt, trendAt]
  simp only [List.length_replicate]
  rw [if_neg h]
  rfl

theorem periodAvg_daily14 {j : ℕ} (hj : j < 7) :
    periodAvg (List.replicate 14 (5:ℚ)) j = some 0 := by
  simp only [periodAvg, List.length_replicate]
  interval_cases j
  · have hf : (List.range 14).filter (fun i => decide (i % 7 = 0)) = [0, 7] := by decide
    rw [hf]
    rw [List.filterMap_cons, detrendAt_daily14_none (by omega),
      List.filterMap_cons, detrendAt_daily14 (by omega) (by omega), List.filterMap_nil]
    norm_num
  · have hf : (List.range 14).filter (fun i => decide (i % 7 = 1)) = [1, 8] := by decide
    rw [hf]
    rw [List.filterMap_cons, detrendAt_daily14_none (by omega),
      List.filterMap_cons, detrendAt_daily14 (by omega) (by omega), List.filterMap_nil]
    norm_num
  · have hf : (List.range 14).filter (fun i => decide (i % 7 = 2)) = [2, 9] := by decide
    rw [hf]
    rw [List.filterMap_cons, detrendAt_daily14_none (by omega),
      List.filterMap_cons, detrendAt_daily14 (by omega) (by omega), List.filterMap_nil]
    norm_num
  · have hf : (List.range 14).filter (fun i => decide (i % 7 = 3)) = [3, 10] := by decide
    rw [hf]
    rw [List.filterMap_cons, detrendAt_daily14 (by omega) (by omega),
      List.filterMap_cons, detrendAt_daily14 (by omega) (by omega), List.filterMap_nil]
    norm_num
  · have hf : (List.range 14).filter (fun i => decide (i % 7 = 4)) = [4, 11] := by decide
    rw [hf]
    rw [List.filterMap_cons, detrendAt_daily14 (by omega) (by omega),
      List.filterMap_cons, detrendAt_daily14_none (by omega), List.filterMap_nil]
    norm_num
  · have hf : (List.range 14).filter (fun i => decide (i % 7 = 5)) = [5, 12] := by decide
    rw [hf]
    rw [List.filterMap_cons, detrendAt_daily14 (by omega) (by omega),
      List.filterMap_cons, detrendAt_daily14_none (by omega), List.filterMap_nil]
    norm_num
  · have hf : (List.range 14).filter (fun i => decide (i % 7 = 6)) = [6, 13] := by decide
    rw [hf]
    rw [List.filterMap_cons, detrendAt_daily14 (by omega) (by omega),
      List.filterMap_cons, detrendAt_daily14_none (by omega), List.filterMap_nil]
    norm_num

theorem periodAvgMean_daily14 : periodAvgMean (List.replicate 14 (5:ℚ)) = some 0 := by
  have h7 : List.range 7 = [0, 1, 2, 3, 4, 5, 6] := rfl
  have hm : (List.range 7).map (periodAvg (List.replicate 14 (5:ℚ))) =
      List.replicate 7 (some 0) := by
    rw [h7]
    simp only [List.map_cons, List.map_nil,
      periodAvg_daily14 (by omega : (0:ℕ) < 7), periodAvg_daily14 (by omega : (1:ℕ) < 7),
      periodAvg_daily14 (by omega : (2:ℕ) < 7), periodAvg_daily14 (by omega : (3:ℕ) < 7),
      periodAvg_daily14 (by omega : (4:ℕ) < 7), periodAvg_daily14 (by omega : (5:ℕ) < 7),
      periodAvg_daily14 (by omega : (6:ℕ) < 7)]
    rfl
  simp only [periodAvgMean, hm]
  rw [if_neg (by decide)]
  have hfm : List.filterMap id (List.replicate 7 (some (0:ℚ))) = List.replicate 7 0 := rfl
  rw [hfm]
  simp only [List.sum_replicate, nsmul_eq_mul]
  norm_num

theorem seasonalAt_daily14 (i : ℕ) :
    seasonalAt (List.replicate 14 (5:ℚ)) i = some 0 := by
  rw [seasonalAt, periodAvg_daily14 (Nat.mod_lt i (by omega)), periodAvgMean_daily14]
  norm_num

theorem residAt_daily14_three : residAt (List.replicate 14 (5:ℚ)) 3 = some 0 := by
  rw [residAt, detrendAt_daily14 (by omega) (by omega), seasonalAt_daily14]
  norm_num

theorem decompose_daily14 : decompose daily14 = Except.ok daily14Result := by
  simp only [decompose, daily14Result]
  rw [if_neg (by simp [daily14]), if_neg (by decide)]

/-- Witness for C7 (amended): `daily13` (13 points) fails the gate;
`daily14` (14 constant points) decomposes, and at index 3 the components
`trend = 5`, `seasonal = 0`, `resid = 0` sum to the observed value 5. -/
theorem decompose_gate_and_additive_identity_witness :
    daily13.length < 14 ∧
    decompose daily13 = Except.error DecompErr.insufficientData ∧
    decompose daily14 = Except.ok daily14Result ∧
    daily14Result.trend.getD 3 none = some 5 ∧
    daily14Result.seasonal.getD 3 none = some 0 ∧
    daily14Result.resid.getD 3 none = some 0 ∧
    daily14Result.observed.getD 3 0 = 5 + 0 + 0 := by
  have h13 : daily13.length < 14 := by simp [daily13]
  have hi3 : (3:ℕ) < (validVals daily14).length := by
    rw [daily14_validVals]
    simp
  have hT : daily14Result.trend.getD 3 none = some 5 := by
    simp only [daily14Result]
    rw [getD_range_map _ hi3, daily14_validVals, trendAt_daily14 (by omega) (by omega)]
  have hS : daily14Result.seasonal.getD 3 none = some 0 := by
    simp only [daily14Result]
    rw [getD_range_map _ hi3, daily14_validVals, seasonalAt_daily14]
  have hR : daily14Result.resid.getD 3 none = some 0 := by
    simp only [daily14Result]
    rw [getD_range_map _ hi3, daily14_validVals, residAt_daily14_three]
  exact ⟨h13, (decompose_gate_and_additive_identity daily13).1 h13, decompose_daily14,
    hT, hS, hR,
    ((decompose_gate_and_additive_identity daily14).2 daily14Result
      decompose_daily14).2 3 5 0 0 hT hS hR⟩

end TrendAnalysis
